import Mathlib

/-!
Verification of the search and auto-save core of the `self-notes`
note-taking application.

This file gives a shallow embedding, in Lean 4, of the search subsystem
(`useSearch`: `scoreMatch`, `findMatches`, `searchNotes`) and of the auto-save
coordinator (`useAutoSave`: `debouncedSave`, `saveNow`, the debounce effect)
of the repository, and proves / refutes the frozen specification claims about
them.

Modelling conventions:
* JavaScript strings are modelled as `List Char` (`String.data`); all inputs
  are assumed to be ASCII, so `Char.toLower` coincides with
  `String.prototype.toLowerCase` and one `Char` is one UTF-16 code unit.
* `String.prototype.indexOf(needle, start)` is `indexOfFrom`: the least
  position `≥ start` at which `needle` occurs.
* `new RegExp(pat, 'g')` applied to the *unescaped* lowercased query (as
  `scoreMatch` does) is modelled for the fragment of patterns actually
  expressible by plain text queries containing at most the metacharacter `.`:
  `parseRegex` maps a query to a token list (`RTok.lit c` / `RTok.dot`) and
  fails (`none`) when the query contains any other regex metacharacter,
  which corresponds to the `RegExp` constructor throwing or to behaviour
  outside the modelled fragment.  `String.prototype.match(re)` with a global
  regex counts non-overlapping matches left to right, advancing past each
  match (by at least one position), which `countMatchesFrom` reproduces.
* The `\b` word boundary of the regex `` `\b${queryLower}\b` `` is modelled by
  `boundaryAt` with the JavaScript word class `[A-Za-z0-9_]`.
* Effects are parameterised: the outcome of `getAllNotes()` is an
  `Except Unit (List Note)` argument, timestamps are `Int`, and the React
  state cell triple (`isSearching`, `searchResults`, `searchQuery`) is an
  explicit `SearchState` record threaded through `searchNotes`.
-/

/-- Lowercase a JS string, character by character (`toLowerCase`, ASCII). -/
def toLowerL (s : List Char) : List Char := s.map Char.toLower

/-- Model of `String.prototype.indexOf(needle, i)` on `hay`: the least position
`j ≥ i` with `needle` a prefix of `hay.drop j`, scanning position by
position; `none` corresponds to JavaScript's `-1`. -/
def indexOfFromAux (hay needle : List Char) : Nat → Nat → Option Nat
  | 0, _ => none
  | fuel + 1, i =>
    if hay.length < i then none
    else if needle.isPrefixOf (hay.drop i) then some i
    else indexOfFromAux hay needle fuel (i + 1)

/-- The scan above with exactly enough fuel to reach the end of `hay`. -/
def indexOfFrom (hay needle : List Char) (i : Nat) : Option Nat :=
  indexOfFromAux hay needle (hay.length + 1 - i) i

/-- A token of the modelled regex fragment: a literal character or `.`. -/
inductive RTok where
  | lit : Char → RTok
  | dot : RTok
deriving DecidableEq, Repr

/-- The characters that are special in JavaScript regex source (the same set
the repository's `highlightText` escapes: `[.*+?^$\x7b\x7d()|[\]\\]`). -/
def regexMetaChars : List Char :=
  ['.', '*', '+', '?', '^', '$', '\x7b', '\x7d', '(', ')', '|', '[', ']', '\\']

/-- Translate the raw query text that `scoreMatch` feeds to `new RegExp` into
the modelled token list.  `.` becomes the any-character token; any other
metacharacter leaves the modelled fragment (`none`), covering in particular
the queries on which the `RegExp` constructor throws (e.g. `"("`). -/
def parseRegex : List Char → Option (List RTok)
  | [] => some []
  | c :: cs =>
    match parseRegex cs with
    | none => none
    | some ts =>
      if c = '.' then some (RTok.dot :: ts)
      else if c ∈ regexMetaChars then none
      else some (RTok.lit c :: ts)

/-- One regex token against one character. -/
def tokMatches : RTok → Char → Bool
  | RTok.lit c, d => c = d
  | RTok.dot, _ => true

/-- A token list matches at the front of a character list. -/
def toksMatchFront : List RTok → List Char → Bool
  | [], _ => true
  | _ :: _, [] => false
  | t :: ts, c :: cs => tokMatches t c && toksMatchFront ts cs

/-- The token list matches `s` starting at position `i`. -/
def toksMatchAt (pat : List RTok) (s : List Char) (i : Nat) : Bool :=
  toksMatchFront pat (s.drop i)

/-- Number of matches of a global regex found from position `i` on:
on a match the scan advances past it (`lastIndex := i + pat.length`, at
least one step for an empty match), otherwise by one position.  This is the
count `(str.match(re) || []).length` yields for a `'g'` regex. -/
def countMatchesFromAux (pat : List RTok) (s : List Char) : Nat → Nat → Nat
  | 0, _ => 0
  | fuel + 1, i =>
    if s.length < i then 0
    else if toksMatchAt pat s i then
      1 + countMatchesFromAux pat s fuel (i + max 1 pat.length)
    else countMatchesFromAux pat s fuel (i + 1)

/-- The counting scan with exactly enough fuel to reach the end of `s`. -/
def countMatchesFrom (pat : List RTok) (s : List Char) (i : Nat) : Nat :=
  countMatchesFromAux pat s (s.length + 1 - i) i

/-- Model of `(contentLower.match(new RegExp(queryLower, 'g')) || []).length`. -/
def jsGlobalCount (pat : List RTok) (s : List Char) : Nat :=
  countMatchesFrom pat s 0

/-- The JavaScript regex word class `\w = [A-Za-z0-9_]`. -/
def isWordChar (c : Char) : Bool :=
  ('a' ≤ c && c ≤ 'z') || ('A' ≤ c && c ≤ 'Z') || ('0' ≤ c && c ≤ '9') || c = '_'

/-- Whether the character at position `i` (if any) is a word character. -/
def wordAt (s : List Char) (i : Nat) : Bool :=
  match s.get? i with
  | some c => isWordChar c
  | none => false

/-- The regex `\b` word-boundary test at position `i` of `s`. -/
def boundaryAt (s : List Char) (i : Nat) : Bool :=
  (if i = 0 then false else wordAt s (i - 1)) != wordAt s i

/-- Matching of `` `\b${pat}\b` `` at position `i`. -/
def wordToksMatchAt (pat : List RTok) (s : List Char) (i : Nat) : Bool :=
  boundaryAt s i && toksMatchAt pat s i && boundaryAt s (i + pat.length)

/-- Global count for the word-boundary regex; the boundaries are zero-width,
so the scan still advances by the pattern length past each match. -/
def countWordMatchesFromAux (pat : List RTok) (s : List Char) : Nat → Nat → Nat
  | 0, _ => 0
  | fuel + 1, i =>
    if s.length < i then 0
    else if wordToksMatchAt pat s i then
      1 + countWordMatchesFromAux pat s fuel (i + max 1 pat.length)
    else countWordMatchesFromAux pat s fuel (i + 1)

def countWordMatchesFrom (pat : List RTok) (s : List Char) (i : Nat) : Nat :=
  countWordMatchesFromAux pat s (s.length + 1 - i) i

/-- Model of the word-boundary count, `(contentLower.match(new RegExp("\\b" + queryLower + "\\b", 'g')) || []).length`. -/
def jsWordCount (pat : List RTok) (s : List Char) : Nat :=
  countWordMatchesFrom pat s 0

/-- The title part of `scoreMatch`:
`if (titleLower.includes(queryLower)) score += 10;
 if (titleLower.startsWith(queryLower)) score += 5` (nested). -/
def titleScore (tl ql : List Char) : Int :=
  if (indexOfFrom tl ql 0).isSome then
    10 + (if ql.isPrefixOf tl then 5 else 0)
  else 0

/-- The content part of `scoreMatch`: `contentMatches * 1 + exactMatches * 2`. -/
def contentScore (pat : List RTok) (cl : List Char) : Int :=
  (jsGlobalCount pat cl : Int) + 2 * (jsWordCount pat cl : Int)

/-- Model of `scoreMatch(content, title, query)` from `useSearch`.  The result is
`none` when the query leaves the modelled regex fragment (in particular when
`new RegExp(queryLower)` throws), `some score` otherwise. -/
def scoreMatch (content title query : String) : Option Int :=
  let ql := toLowerL query.data
  let tl := toLowerL title.data
  let cl := toLowerL content.data
  match parseRegex ql with
  | none => none
  | some pat => some (titleScore tl ql + contentScore pat cl)

/-! ## Basic lemmas about the scans -/

/-- Strong induction along a finite left-to-right scan over positions
`0 … len` (the scheme shared by `indexOfFrom`, `countMatchesFrom` and
`findMatchesFrom`). -/
theorem scanInduction (len : Nat) (P : Nat → Prop)
    (base : ∀ i, len < i → P i)
    (step : ∀ i, i ≤ len → P (i + 1) → P i) :
    ∀ i, P i := by
  have key : ∀ n i, len + 1 - i ≤ n → P i := by
    intro n
    induction n with
    | zero => intro i h; exact base i (by omega)
    | succ n ih =>
      intro i h
      by_cases hc : len < i
      · exact base i hc
      · exact step i (by omega) (ih (i + 1) (by omega))
  exact fun i => key (len + 1 - i) i le_rfl

theorem indexOfFrom_of_gt (hay needle : List Char) (i : Nat) (h : hay.length < i) :
    indexOfFrom hay needle i = none := by
  unfold indexOfFrom
  have hz : hay.length + 1 - i = 0 := by omega
  rw [hz]
  rfl

theorem indexOfFrom_of_hit (hay needle : List Char) (i : Nat) (h : ¬ hay.length < i)
    (hp : needle.isPrefixOf (hay.drop i)) : indexOfFrom hay needle i = some i := by
  unfold indexOfFrom
  have hs : hay.length + 1 - i = (hay.length - i) + 1 := by omega
  rw [hs]
  simp [indexOfFromAux, h, hp]

theorem indexOfFrom_of_miss (hay needle : List Char) (i : Nat) (h : ¬ hay.length < i)
    (hp : ¬ needle.isPrefixOf (hay.drop i)) :
    indexOfFrom hay needle i = indexOfFrom hay needle (i + 1) := by
  unfold indexOfFrom
  have hs : hay.length + 1 - i = (hay.length - i) + 1 := by omega
  have hs2 : hay.length + 1 - (i + 1) = hay.length - i := by omega
  rw [hs, hs2]
  simp [indexOfFromAux, h, hp]

/-- A hit reported by `indexOfFrom` lies between the start position and the
end of the haystack. -/
theorem indexOfFrom_some_bounds (hay needle : List Char) :
    ∀ i j, indexOfFrom hay needle i = some j → i ≤ j ∧ j ≤ hay.length := by
  refine scanInduction hay.length (fun i => ∀ j, indexOfFrom hay needle i = some j → i ≤ j ∧ j ≤ hay.length) ?_ ?_
  · intro i hi j h
    rw [indexOfFrom_of_gt hay needle i hi] at h
    exact absurd h (by simp)
  · intro i hi ih j h
    by_cases hp : needle.isPrefixOf (hay.drop i)
    · rw [indexOfFrom_of_hit hay needle i (by omega) hp] at h
      obtain rfl : i = j := by simpa using h
      omega
    · rw [indexOfFrom_of_miss hay needle i (by omega) hp] at h
      have := ih j h
      omega

/-! ## `findMatches` -/

/-- The `type` tag of a match (`'title' | 'content'`). -/
inductive MType where
  | title
  | content
deriving DecidableEq, Repr

/-- One element of the array built by `findMatches`. -/
structure SMatch where
  type : MType
  text : List Char
  index : Nat
  length : Nat
deriving DecidableEq, Repr

/-- Model of `text.substring(start, stop)` for `start ≤ stop`, clamping to the bounds
of the string as JavaScript does. -/
def substringJS (s : List Char) (start stop : Nat) : List Char :=
  (s.take stop).drop start

/-- The record `findMatches` pushes for a hit at position `j`. -/
def mkMatch (text : List Char) (qlen : Nat) (ty : MType) (j : Nat) : SMatch :=
  { type := ty
    text := substringJS text (j - 50) (j + qlen + 50)
    index := j
    length := qlen }

/-- The `while (index !== -1)` loop of `findMatches`, scanning `tl`
(the lowercased text) for `ql` (the lowercased query) from position `i`,
emitting one match record per hit and resuming at `hit + 1`.  The fuel is
one unit per loop iteration; each iteration strictly advances the
position. -/
def findMatchesFromAux (text tl ql : List Char) (qlen : Nat) (ty : MType) :
    Nat → Nat → List SMatch
  | 0, _ => []
  | fuel + 1, i =>
    match indexOfFrom tl ql i with
    | none => []
    | some j => mkMatch text qlen ty j :: findMatchesFromAux text tl ql qlen ty fuel (j + 1)

def findMatchesFrom (text tl ql : List Char) (qlen : Nat) (ty : MType) (i : Nat) :
    List SMatch :=
  findMatchesFromAux text tl ql qlen ty (tl.length + 1 - i) i

/-- Model of `findMatches(text, query, type)` from `useSearch`. -/
def findMatches (text query : String) (ty : MType) : List SMatch :=
  findMatchesFrom text.data (toLowerL text.data) (toLowerL query.data)
    query.data.length ty 0

theorem findMatchesFromAux_of_none (text tl ql : List Char) (qlen : Nat) (ty : MType)
    (i : Nat) (h : indexOfFrom tl ql i = none) :
    ∀ fuel, findMatchesFromAux text tl ql qlen ty fuel i = [] := by
  intro fuel
  cases fuel with
  | zero => rfl
  | succ fuel => rw [findMatchesFromAux, h]

/-- Any two sufficient fuels compute the same match list. -/
theorem findMatchesFromAux_congr (text tl ql : List Char) (qlen : Nat) (ty : MType) :
    ∀ f1 f2 i, tl.length + 1 - i ≤ f1 → tl.length + 1 - i ≤ f2 →
      findMatchesFromAux text tl ql qlen ty f1 i =
        findMatchesFromAux text tl ql qlen ty f2 i := by
  intro f1
  induction f1 with
  | zero =>
    intro f2 i h1 h2
    have hnone : indexOfFrom tl ql i = none := indexOfFrom_of_gt tl ql i (by omega)
    rw [findMatchesFromAux_of_none text tl ql qlen ty i hnone,
      findMatchesFromAux_of_none text tl ql qlen ty i hnone]
  | succ f1 ih =>
    intro f2 i h1 h2
    cases f2 with
    | zero =>
      have hnone : indexOfFrom tl ql i = none := indexOfFrom_of_gt tl ql i (by omega)
      rw [findMatchesFromAux_of_none text tl ql qlen ty i hnone,
        findMatchesFromAux_of_none text tl ql qlen ty i hnone]
    | succ f2 =>
      cases h : indexOfFrom tl ql i with
      | none => rw [findMatchesFromAux, findMatchesFromAux, h]
      | some j =>
        have hb := indexOfFrom_some_bounds tl ql i j h
        rw [findMatchesFromAux, findMatchesFromAux, h]
        dsimp only
        rw [ih f2 (j + 1) (by omega) (by omega)]

theorem findMatchesFrom_of_none (text tl ql : List Char) (qlen : Nat) (ty : MType)
    (i : Nat) (h : indexOfFrom tl ql i = none) :
    findMatchesFrom text tl ql qlen ty i = [] :=
  findMatchesFromAux_of_none text tl ql qlen ty i h _

theorem findMatchesFrom_of_some (text tl ql : List Char) (qlen : Nat) (ty : MType)
    (i j : Nat) (h : indexOfFrom tl ql i = some j) :
    findMatchesFrom text tl ql qlen ty i =
      mkMatch text qlen ty j :: findMatchesFrom text tl ql qlen ty (j + 1) := by
  have hb := indexOfFrom_some_bounds tl ql i j h
  unfold findMatchesFrom
  have hs : tl.length + 1 - i = (tl.length - i) + 1 := by omega
  rw [hs, findMatchesFromAux, h]
  dsimp only
  rw [findMatchesFromAux_congr text tl ql qlen ty (tl.length - i) (tl.length + 1 - (j + 1))
      (j + 1) (by omega) (by omega)]

/-- Specification-side description of the matcher: all start positions in
`tl` at which `ql` occurs (positions listed in increasing order). -/
def occPositions (tl ql : List Char) : List Nat :=
  (List.range (tl.length + 1)).filter (fun j => ql.isPrefixOf (tl.drop j))

/-- The tail of `occPositions` from position `i` on. -/
def occPositionsFrom (tl ql : List Char) (i : Nat) : List Nat :=
  (List.range' i (tl.length + 1 - i)).filter (fun j => ql.isPrefixOf (tl.drop j))

theorem occPositions_eq_from_zero (tl ql : List Char) :
    occPositions tl ql = occPositionsFrom tl ql 0 := by
  unfold occPositions occPositionsFrom
  rw [List.range_eq_range' (tl.length + 1)]
  simp

/-- The scan of `findMatches` visits exactly the occurrence positions, in
increasing order.  (For an empty query the JavaScript loop does not
terminate; the model stops at the end of the text, and the claims only
concern non-empty queries.) -/
theorem findMatchesFrom_eq_occ (text tl ql : List Char) (qlen : Nat) (ty : MType) :
    ∀ i, findMatchesFrom text tl ql qlen ty i =
      (occPositionsFrom tl ql i).map (mkMatch text qlen ty) := by
  refine scanInduction tl.length
    (fun i => findMatchesFrom text tl ql qlen ty i =
      (occPositionsFrom tl ql i).map (mkMatch text qlen ty)) ?_ ?_
  · intro i hi
    rw [findMatchesFrom_of_none text tl ql qlen ty i (indexOfFrom_of_gt tl ql i hi)]
    unfold occPositionsFrom
    have : tl.length + 1 - i = 0 := by omega
    rw [this]
    rfl
  · intro i hi ih
    have hsplit : tl.length + 1 - i = (tl.length + 1 - (i + 1)) + 1 := by omega
    by_cases hp : ql.isPrefixOf (tl.drop i)
    · rw [findMatchesFrom_of_some text tl ql qlen ty i i
        (indexOfFrom_of_hit tl ql i (by omega) hp), ih]
      unfold occPositionsFrom
      rw [hsplit, List.range'_succ, List.filter_cons]
      simp [hp, mkMatch]
    · have hstep : findMatchesFrom text tl ql qlen ty i =
          findMatchesFrom text tl ql qlen ty (i + 1) := by
        cases h : indexOfFrom tl ql (i + 1) with
        | none =>
          rw [findMatchesFrom_of_none text tl ql qlen ty i
              ((indexOfFrom_of_miss tl ql i (by omega) hp).trans h),
            findMatchesFrom_of_none text tl ql qlen ty (i + 1) h]
        | some j =>
          rw [findMatchesFrom_of_some text tl ql qlen ty i j
              ((indexOfFrom_of_miss tl ql i (by omega) hp).trans h),
            findMatchesFrom_of_some text tl ql qlen ty (i + 1) j h]
      rw [hstep, ih]
      unfold occPositionsFrom
      rw [hsplit, List.range'_succ, List.filter_cons]
      simp [hp]

/-! ## Literal patterns: bridges between the regex model and plain substrings -/

/-- The token list `new RegExp` produces from a query that contains no
regex metacharacter: every character is a literal. -/
def litToks (q : List Char) : List RTok := q.map RTok.lit

theorem parseRegex_of_no_meta (q : List Char) (h : ∀ c ∈ q, c ∉ regexMetaChars) :
    parseRegex q = some (litToks q) := by
  induction q with
  | nil => rfl
  | cons c cs ih =>
    have hc : c ∉ regexMetaChars := h c (List.mem_cons_self c cs)
    have hdot : c ≠ '.' := by
      intro hd
      exact hc (hd ▸ (by simp [regexMetaChars]))
    rw [parseRegex, ih (fun d hd => h d (List.mem_cons_of_mem c hd))]
    simp [hdot, hc, litToks]

theorem toksMatchFront_litToks (q : List Char) :
    ∀ s : List Char, toksMatchFront (litToks q) s = q.isPrefixOf s := by
  induction q with
  | nil => intro s; cases s <;> rfl
  | cons c cs ih =>
    intro s
    cases s with
    | nil => rfl
    | cons d ds =>
      simp only [litToks, List.map_cons, toksMatchFront, tokMatches, List.isPrefixOf]
      rw [← litToks, ih ds]
      by_cases hcd : c = d
      · simp [hcd]
      · simp [hcd, BEq.beq]

theorem litToks_length (q : List Char) : (litToks q).length = q.length := by
  simp [litToks]

/-- Specification-side literal occurrence counter: a left-to-right scan that
counts an occurrence of `q` whenever `q` occurs at the current position and
then resumes immediately past that occurrence (non-overlapping count). -/
def litCountFromAux (q s : List Char) : Nat → Nat → Nat
  | 0, _ => 0
  | fuel + 1, i =>
    if s.length < i then 0
    else if q.isPrefixOf (s.drop i) then 1 + litCountFromAux q s fuel (i + max 1 q.length)
    else litCountFromAux q s fuel (i + 1)

def litCountFrom (q s : List Char) (i : Nat) : Nat :=
  litCountFromAux q s (s.length + 1 - i) i

/-- Specification-side literal whole-word occurrence counter: same scan, but
an occurrence also needs word boundaries on both sides. -/
def litWordCountFromAux (q s : List Char) : Nat → Nat → Nat
  | 0, _ => 0
  | fuel + 1, i =>
    if s.length < i then 0
    else if boundaryAt s i && q.isPrefixOf (s.drop i) && boundaryAt s (i + q.length) then
      1 + litWordCountFromAux q s fuel (i + max 1 q.length)
    else litWordCountFromAux q s fuel (i + 1)

def litWordCountFrom (q s : List Char) (i : Nat) : Nat :=
  litWordCountFromAux q s (s.length + 1 - i) i

/-- Strong variant of `scanInduction`: the inductive hypothesis is available
at every later position (needed for the scans that jump past a match). -/
theorem scanInductionStrong (len : Nat) (P : Nat → Prop)
    (base : ∀ i, len < i → P i)
    (step : ∀ i, i ≤ len → (∀ j, i < j → P j) → P i) :
    ∀ i, P i := by
  have key : ∀ n i, len + 1 - i ≤ n → P i := by
    intro n
    induction n with
    | zero => intro i h; exact base i (by omega)
    | succ n ih =>
      intro i h
      by_cases hc : len < i
      · exact base i hc
      · refine step i (by omega) (fun j hj => ?_)
        by_cases hjl : len < j
        · exact base j hjl
        · exact ih j (by omega)
  exact fun i => key (len + 1 - i) i le_rfl

theorem countMatchesFromAux_litToks (q s : List Char) :
    ∀ fuel i, countMatchesFromAux (litToks q) s fuel i = litCountFromAux q s fuel i := by
  intro fuel
  induction fuel with
  | zero => intro i; rfl
  | succ fuel ih =>
    intro i
    rw [countMatchesFromAux, litCountFromAux]
    by_cases h1 : s.length < i
    · simp [h1]
    · by_cases h2 : q.isPrefixOf (s.drop i)
      · simp [h1, h2, toksMatchAt, toksMatchFront_litToks, litToks_length, ih]
      · simp [h1, h2, toksMatchAt, toksMatchFront_litToks, ih]

theorem countMatchesFrom_litToks (q s : List Char) :
    ∀ i, countMatchesFrom (litToks q) s i = litCountFrom q s i := by
  intro i
  unfold countMatchesFrom litCountFrom
  exact countMatchesFromAux_litToks q s _ i

theorem countWordMatchesFromAux_litToks (q s : List Char) :
    ∀ fuel i, countWordMatchesFromAux (litToks q) s fuel i = litWordCountFromAux q s fuel i := by
  intro fuel
  induction fuel with
  | zero => intro i; rfl
  | succ fuel ih =>
    intro i
    rw [countWordMatchesFromAux, litWordCountFromAux]
    by_cases h1 : s.length < i
    · simp [h1]
    · by_cases h2 : boundaryAt s i && q.isPrefixOf (s.drop i) && boundaryAt s (i + q.length)
      · simp [wordToksMatchAt, toksMatchAt, toksMatchFront_litToks, litToks_length, h1, h2, ih]
      · simp [wordToksMatchAt, toksMatchAt, toksMatchFront_litToks, litToks_length, h1, h2, ih]

theorem countWordMatchesFrom_litToks (q s : List Char) :
    ∀ i, countWordMatchesFrom (litToks q) s i = litWordCountFrom q s i := by
  intro i
  unfold countWordMatchesFrom litWordCountFrom
  exact countWordMatchesFromAux_litToks q s _ i

theorem indexOfFrom_isSome_iff (hay needle : List Char) :
    ∀ i, (indexOfFrom hay needle i).isSome ↔
      ∃ j, i ≤ j ∧ j ≤ hay.length ∧ needle.isPrefixOf (hay.drop j) := by
  refine scanInduction hay.length
    (fun i => (indexOfFrom hay needle i).isSome ↔
      ∃ j, i ≤ j ∧ j ≤ hay.length ∧ needle.isPrefixOf (hay.drop j)) ?_ ?_
  · intro i hi
    rw [indexOfFrom_of_gt hay needle i hi]
    constructor
    · intro h
      exact absurd h (by simp)
    · rintro ⟨j, hij, hjl, -⟩
      omega
  · intro i hi ih
    by_cases hp : needle.isPrefixOf (hay.drop i)
    · rw [indexOfFrom_of_hit hay needle i (by omega) hp]
      simp only [Option.isSome_some, true_iff]
      exact ⟨i, le_rfl, hi, hp⟩
    · rw [indexOfFrom_of_miss hay needle i (by omega) hp, ih]
      constructor
      · rintro ⟨j, hij, hjl, hpj⟩
        exact ⟨j, by omega, hjl, hpj⟩
      · rintro ⟨j, hij, hjl, hpj⟩
        refine ⟨j, ?_, hjl, hpj⟩
        rcases Nat.eq_or_lt_of_le hij with rfl | h
        · exact absurd hpj hp
        · omega

/-- `titleLower.includes(queryLower)` decides exactly substring containment. -/
theorem includes_isInfix_iff (hay needle : List Char) :
    (indexOfFrom hay needle 0).isSome ↔ needle <:+: hay := by
  rw [indexOfFrom_isSome_iff hay needle 0]
  constructor
  · rintro ⟨j, -, hjl, hpj⟩
    obtain ⟨t, ht⟩ := List.isPrefixOf_iff_prefix.mp hpj
    exact ⟨hay.take j, t, by rw [List.append_assoc, ht, List.take_append_drop]⟩
  · rintro ⟨s, t, hst⟩
    refine ⟨s.length, Nat.zero_le _, ?_, ?_⟩
    · rw [← hst]; simp
    · rw [← hst, List.append_assoc, List.drop_left]
      exact List.isPrefixOf_iff_prefix.mpr ⟨t, rfl⟩

/-! ## The search orchestrator `searchNotes` -/

/-- A note record as read from the store (`getAllNotes`).  `name`/`content`
may be the empty string (JavaScript falsy `''`); the timestamps may be
absent, and are modelled as integer epoch values. -/
structure Note where
  path : String
  name : String
  content : String
  createdAt : Option Int
  updatedAt : Option Int
deriving DecidableEq, Repr

/-- Values of `filters.contentType`. -/
inductive ContentType where
  | all
  | tasks
  | links
  | text
deriving DecidableEq, Repr

/-- Values of `filters.sortBy`. -/
inductive SortKey where
  | relevance
  | date
  | title
deriving DecidableEq, Repr

/-- The `SearchFilters` argument; `none` models an absent field. -/
structure SearchFilters where
  dateRange : Option (Int × Int)
  contentType : Option ContentType
  sortBy : Option SortKey
deriving DecidableEq, Repr

/-- One entry of the published `SearchResult[]`. -/
structure SearchResult where
  path : String
  name : String
  content : String
  createdAt : Int
  updatedAt : Int
  «matches» : List SMatch
  score : Int
deriving DecidableEq, Repr

/-- Model of `hay.includes(sub)`. -/
def includesL (hay sub : List Char) : Bool := (indexOfFrom hay sub 0).isSome

/-- Model of `s.trim()`: strip leading and trailing whitespace (ASCII fragment of the
JavaScript whitespace class). -/
def jsTrim (s : List Char) : List Char :=
  ((s.dropWhile Char.isWhitespace).reverse.dropWhile Char.isWhitespace).reverse

/-- The `.filter(note => …)` predicate of `searchNotes`: non-empty note,
basic containment of the query in `title + " " + content`, optional date
range on `updatedAt || createdAt`, optional content-type classification. -/
def keepNote (query : String) (filters : SearchFilters) (note : Note) : Bool :=
  if note.content = "" && note.name = "" then false
  else
    let searchText := toLowerL (note.name ++ " " ++ note.content).data
    let ql := toLowerL query.data
    if !includesL searchText ql then false
    else
      let dateOk :=
        match filters.dateRange with
        | none => true
        | some (s, e) =>
          match note.updatedAt <|> note.createdAt with
          | none => true
          | some d => !(d < s || e < d)
      let typeOk :=
        match filters.contentType with
        | none => true
        | some ContentType.all => true
        | some ContentType.tasks =>
          includesL note.content.data "- [ ]".data ||
            includesL note.content.data "- [x]".data
        | some ContentType.links =>
          includesL note.content.data "http".data ||
            includesL note.content.data "[".data ||
            includesL note.content.data "](".data
        | some ContentType.text =>
          !(includesL note.content.data "- [ ]".data ||
            includesL note.content.data "- [x]".data ||
            includesL note.content.data "http".data)
      dateOk && typeOk

/-- The `.map(note => …)` body: assemble one `SearchResult`.  `now` stands
for `new Date()` used as the fallback timestamp; `none` propagates a throw
from `scoreMatch`. -/
def buildResult (query : String) (now : Int) (note : Note) : Option SearchResult :=
  match scoreMatch note.content note.name query with
  | none => none
  | some s =>
    some
      { path := note.path
        name := note.name
        content := note.content
        createdAt := note.createdAt.getD now
        updatedAt := note.updatedAt.getD now
        «matches» := findMatches note.name query MType.title ++
          (findMatches note.content query MType.content).take 3
        score := s }

/-- The JavaScript sort comparator selected by `filters.sortBy`
(negative: `a` before `b`). -/
def resultCompare (k : Option SortKey) (a b : SearchResult) : Int :=
  match k with
  | some SortKey.date => b.updatedAt - a.updatedAt
  | some SortKey.title =>
    match compare a.name b.name with
    | Ordering.lt => -1
    | Ordering.eq => 0
    | Ordering.gt => 1
  | some SortKey.relevance => b.score - a.score
  | none => b.score - a.score

/-- Stable insertion of `x` in front of the first element it precedes. -/
def insertSorted (le : α → α → Bool) (x : α) : List α → List α
  | [] => [x]
  | y :: ys => if le x y then x :: y :: ys else y :: insertSorted le x ys

/-- Stable sort (`Array.prototype.sort` is stable). -/
def sortStable (le : α → α → Bool) : List α → List α
  | [] => []
  | x :: xs => insertSorted le x (sortStable le xs)

/-- filter → map → sort → `.slice(0, 50)`; `none` models a throw anywhere
in the processing. -/
def processNotes (query : String) (filters : SearchFilters) (now : Int)
    (notes : List Note) : Option (List SearchResult) :=
  match (notes.filter (keepNote query filters)).mapM (buildResult query now) with
  | none => none
  | some rs =>
    some ((sortStable (fun a b => resultCompare filters.sortBy a b ≤ 0) rs).take 50)

/-- The three React state cells owned by `useSearch`. -/
structure SearchState where
  isSearching : Bool
  searchResults : List SearchResult
  searchQuery : String
deriving DecidableEq, Repr

/-- Model of `searchNotes(query, filters)`.  `fetched` is the outcome of
`await getAllNotes()`; the `catch` branch publishes `[]` and the `finally`
branch resets `isSearching` on every completion path. -/
def searchNotes (fetched : Except Unit (List Note)) (query : String)
    (filters : SearchFilters) (now : Int) (st : SearchState) : SearchState :=
  if jsTrim query.data = [] then
    { st with searchResults := [], searchQuery := "" }
  else
    match fetched with
    | Except.error _ =>
      { isSearching := false, searchResults := [], searchQuery := query }
    | Except.ok notes =>
      match processNotes query filters now notes with
      | none => { isSearching := false, searchResults := [], searchQuery := query }
      | some rs => { isSearching := false, searchResults := rs, searchQuery := query }

/-! ## The auto-save coordinator `useAutoSave` -/

/-- The two refs of `useAutoSave` that outlive a render:
`isSavingRef.current` is `inFlight.isSome`, and `inFlight` additionally
records the content handed to the pending `onSave` call;
`lastSavedContentRef.current` is `lastSavedContent` (initially `''`). -/
structure AutoSaveState where
  inFlight : Option (List Char)
  lastSavedContent : List Char
deriving DecidableEq, Repr

/-- The synchronous part of `debouncedSave`, up to the decision whether to
call `onSave`: the returned flag says whether a persist call was started
(in which case `inFlight` records its trimmed argument). -/
def debouncedSave (st : AutoSaveState) (content : String) (enabled : Bool) :
    AutoSaveState × Bool :=
  if st.inFlight.isSome || !enabled then (st, false)
  else
    let contentToSave := jsTrim content.data
    if contentToSave = st.lastSavedContent then (st, false)
    else ({ st with inFlight := some contentToSave }, true)

/-- Completion of the awaited `onSave` call: `lastSavedContentRef` is
updated only on success, and `finally` clears `isSavingRef`. -/
def saveCompleted (st : AutoSaveState) (success : Bool) : AutoSaveState :=
  match st.inFlight with
  | none => st
  | some c =>
    { inFlight := none
      lastSavedContent := if success then c else st.lastSavedContent }

/-- The coordinator as seen by the debounce `useEffect`: the single timeout
slot (`timeoutRef`, as fire time plus the content captured by the
`debouncedSave` closure at arming time) together with the save refs. -/
structure CoordState where
  timer : Option (Nat × String)
  save : AutoSaveState
deriving DecidableEq, Repr

/-- Model of `saveNow`: clear any pending timer, then run `debouncedSave`; the flag
says whether a persist call was started. -/
def saveNow (st : CoordState) (content : String) (enabled : Bool) :
    CoordState × Bool :=
  let step := debouncedSave st.save content enabled
  ({ timer := none, save := step.1 }, step.2)

/-- The timer fires: run `debouncedSave` with the content captured when the
timeout was armed; the persist call (if any) is recorded as
`(fire time, trimmed content)` and is modelled as completing successfully
before the next event (in the scenarios below no second event can arrive
while it is in flight). -/
def fireTimer (st : CoordState) (enabled : Bool) : CoordState × List (Nat × List Char) :=
  match st.timer with
  | none => (st, [])
  | some (ft, c) =>
    let (a, made) := debouncedSave st.save c enabled
    ({ timer := none, save := saveCompleted a true },
      if made then [(ft, jsTrim c.data)] else [])

/-- One content change at time `t`: React first runs the previous effect's
cleanup (`clearTimeout`), so a pending timer that has not fired by `t` is
discarded; if it was due before `t` it has already fired.  The new effect
arms a fresh timeout for `t + delay` unless disabled or the trimmed content
is empty. -/
def applyContentChange (delay : Nat) (enabled : Bool) (st : CoordState)
    (t : Nat) (c : String) : CoordState × List (Nat × List Char) :=
  let fired :=
    match st.timer with
    | some (ft, _) => if ft ≤ t then fireTimer st enabled else (st, [])
    | none => (st, [])
  let newTimer := if enabled && !(jsTrim c.data = []) then some (t + delay, c) else none
  ({ fired.1 with timer := newTimer }, fired.2)

/-- Fold a time-ordered list of content changes through the coordinator,
collecting every persist call that is made. -/
def runChanges (delay : Nat) (enabled : Bool) :
    CoordState → List (Nat × String) → CoordState × List (Nat × List Char)
  | st, [] => (st, [])
  | st, (t, c) :: rest =>
    let step := applyContentChange delay enabled st t c
    let tail := runChanges delay enabled step.1 rest
    (tail.1, step.2 ++ tail.2)

/-- A complete run from the initial state (`timeoutRef = null`,
`isSavingRef = false`, `lastSavedContentRef = ''`): process the changes in
order, then let any remaining timer fire.  Returns the list of persist
calls as `(time, content)` pairs. -/
def autoSaveRun (delay : Nat) (enabled : Bool) (changes : List (Nat × String)) :
    List (Nat × List Char) :=
  let st0 : CoordState := { timer := none, save := { inFlight := none, lastSavedContent := [] } }
  let r := runChanges delay enabled st0 changes
  let f := fireTimer r.1 enabled
  r.2 ++ f.2

/-! ## Claim theorems -/

/-- The content portion of the relevance score exactly as claim C2 words it:
1 point per start position at which the query occurs in the content
(overlapping occurrences included), plus 2 points per word-boundary
delimited occurrence. -/
def claimedContentPortionC2 (content query : String) : Int :=
  let cl := toLowerL content.data
  let ql := toLowerL query.data
  ((occPositions cl ql).length : Int) +
    2 * (((List.range (cl.length + 1)).filter
      (fun j => boundaryAt cl j && ql.isPrefixOf (cl.drop j) &&
        boundaryAt cl (j + ql.length))).length : Int)

/-- C1 (code bug): the claim requires `scoreMatch` to count only literal
occurrences and for content `"a.b.c"`, query `"."` a raw count of exactly 2.
The code builds `new RegExp(queryLower, 'g')` without escaping, so `.`
matches every character: the raw count is 5 (score `0 + 5 + 2·5 = 15`),
not 2.  `findMatches`, by contrast, scans with `indexOf` and does locate
exactly the two literal occurrences (positions 1 and 3).  (For a query such
as `"("` the `RegExp` constructor even throws, modelled by
`scoreMatch = none`.) -/
theorem claim_C1_scoreMatch_dot_not_literal :
    scoreMatch "a.b.c" "" "." = some 15 ∧
    parseRegex (toLowerL ".".data) = some [RTok.dot] ∧
    jsGlobalCount [RTok.dot] (toLowerL "a.b.c".data) = 5 ∧
    (occPositions (toLowerL "a.b.c".data) (toLowerL ".".data)).length = 2 ∧
    findMatches "a.b.c" "." MType.content =
      [⟨MType.content, "a.b.c".data, 1, 1⟩, ⟨MType.content, "a.b.c".data, 3, 1⟩] ∧
    scoreMatch "" "" "(" = none := by
  decide

/-- C2 (counterexample): for content `"aaa"` and query `"aa"` the claim's
formula (overlapping count 2, no word hit) predicts a content portion of 2,
but `scoreMatch` returns 1: the global regex scan resumes *past* each match,
so overlapping occurrences are not all counted. -/
theorem claim_C2_counterexample :
    scoreMatch "aaa" "" "aa" = some 1 ∧
    claimedContentPortionC2 "aaa" "aa" = 2 ∧
    scoreMatch "aaa" "" "aa" ≠ some (claimedContentPortionC2 "aaa" "aa") := by
  decide

/-- C2 (amended): for queries free of regex metacharacters the
content-derived portion is 1 point per occurrence found by a left-to-right
scan that resumes immediately past each match (non-overlapping count,
`litCountFrom`), plus 2 points per whole-word occurrence found the same way
(`litWordCountFrom`), each whole-word occurrence counted in both terms. -/
theorem claim_C2_amended (content title query : String)
    (h : ∀ c ∈ toLowerL query.data, c ∉ regexMetaChars) :
    scoreMatch content title query =
      some (titleScore (toLowerL title.data) (toLowerL query.data) +
        ((litCountFrom (toLowerL query.data) (toLowerL content.data) 0 : Int) +
          2 * (litWordCountFrom (toLowerL query.data) (toLowerL content.data) 0 : Int))) := by
  unfold scoreMatch
  dsimp only
  rw [parseRegex_of_no_meta _ h]
  simp [contentScore, jsGlobalCount, jsWordCount, countMatchesFrom_litToks,
    countWordMatchesFrom_litToks]

/-- Witness for `claim_C2_amended` at content `"abab"`, query `"ab"`. -/
theorem claim_C2_amended_witness :
    (∀ c ∈ toLowerL "ab".data, c ∉ regexMetaChars) ∧
    scoreMatch "abab" "" "ab" =
      some (titleScore (toLowerL "".data) (toLowerL "ab".data) +
        ((litCountFrom (toLowerL "ab".data) (toLowerL "abab".data) 0 : Int) +
          2 * (litWordCountFrom (toLowerL "ab".data) (toLowerL "abab".data) 0 : Int))) :=
  ⟨by decide, claim_C2_amended "abab" "" "ab" (by decide)⟩

theorem contentScore_nonneg (pat : List RTok) (cl : List Char) :
    0 ≤ contentScore pat cl := by
  unfold contentScore
  positivity

/-- C3: whenever `scoreMatch` produces a score, that score decomposes as a
title portion plus a non-negative content portion, where the title portion
is 15 when the lowercased title starts with the lowercased query, 10 when it
merely contains it, and 0 when it does not contain it; consequently the
total score is never negative. -/
theorem claim_C3_title_portion (content title query : String) (s : Int)
    (h : scoreMatch content title query = some s) :
    ∃ pat, parseRegex (toLowerL query.data) = some pat ∧
      s = (if toLowerL query.data <:+: toLowerL title.data then
             (if toLowerL query.data <+: toLowerL title.data then (15 : Int) else 10)
           else 0) + contentScore pat (toLowerL content.data) ∧
      0 ≤ contentScore pat (toLowerL content.data) ∧
      0 ≤ s := by
  unfold scoreMatch at h
  dsimp only at h
  cases hp : parseRegex (toLowerL query.data) with
  | none => rw [hp] at h; exact absurd h (by simp)
  | some pat =>
    rw [hp] at h
    obtain rfl : titleScore (toLowerL title.data) (toLowerL query.data) +
        contentScore pat (toLowerL content.data) = s := by simpa using h
    refine ⟨pat, rfl, ?_, contentScore_nonneg pat _, ?_⟩
    · have hti : titleScore (toLowerL title.data) (toLowerL query.data) =
          if toLowerL query.data <:+: toLowerL title.data then
            (if toLowerL query.data <+: toLowerL title.data then (15 : Int) else 10)
          else 0 := by
        unfold titleScore
        by_cases h1 : toLowerL query.data <:+: toLowerL title.data
        · by_cases h2 : toLowerL query.data <+: toLowerL title.data
          · simp [h1, h2, (includes_isInfix_iff _ _).mpr h1,
              List.isPrefixOf_iff_prefix.mpr h2]
          · have hnp : (toLowerL query.data).isPrefixOf (toLowerL title.data) = false := by
              rw [Bool.eq_false_iff]
              intro hc
              exact h2 <| List.isPrefixOf_iff_prefix.mp hc
            simp [h1, h2, (includes_isInfix_iff _ _).mpr h1, hnp]
        · have hni : (indexOfFrom (toLowerL title.data) (toLowerL query.data) 0).isSome = false := by
            rw [Bool.eq_false_iff]
            intro hc
            exact h1 ( (includes_isInfix_iff _ _).mp hc)
          simp [h1, hni]
      rw [hti]
    · have hti : 0 ≤ titleScore (toLowerL title.data) (toLowerL query.data) := by
        unfold titleScore
        split
        · split <;> omega
        · omega
      have := contentScore_nonneg pat (toLowerL content.data)
      omega

/-- Witness for `claim_C3_title_portion`: title `"ab"`, query `"a"`
(title-prefix match), content `"x"` (no occurrence) score 15. -/
theorem claim_C3_title_portion_witness :
    scoreMatch "x" "ab" "a" = some 15 ∧
    ∃ pat, parseRegex (toLowerL "a".data) = some pat ∧
      (15 : Int) = (if toLowerL "a".data <:+: toLowerL "ab".data then
             (if toLowerL "a".data <+: toLowerL "ab".data then (15 : Int) else 10)
           else 0) + contentScore pat (toLowerL "x".data) ∧
      0 ≤ contentScore pat (toLowerL "x".data) ∧
      0 ≤ (15 : Int) :=
  ⟨by decide, claim_C3_title_portion "x" "ab" "a" 15 (by decide)⟩

/-- C4 (counterexample): with title `"abc"` and content `"bc bc bc"` fixed,
the query `"abc"` matches the title as a prefix yet scores 15, while the
query `"bc"` is merely contained (non-prefix) in the title and scores 19:
content occurrences can outweigh the title bonus, so a title-prefix query
does *not* always score at least as much as a merely-contained one. -/
theorem claim_C4_counterexample :
    (toLowerL "abc".data <+: toLowerL "abc".data) ∧
    (toLowerL "bc".data <:+: toLowerL "abc".data) ∧
    ¬ (toLowerL "bc".data <+: toLowerL "abc".data) ∧
    scoreMatch "bc bc bc" "abc" "abc" = some 15 ∧
    scoreMatch "bc bc bc" "abc" "bc" = some 19 ∧
    ¬ (15 : Int) ≥ 19 := by
  decide

/-- C4 (amended): the ordering holds once the content-derived portions of
the three queries agree (in particular the title-derived portions alone are
ordered 15 ≥ 10 ≥ 0): for fixed title and content, a title-prefix query
scores ≥ a title-contained query, which scores ≥ a query absent from the
title. -/
theorem claim_C4_amended (content title qa qb qc : String) (pa pb pc : List RTok)
    (hpa : parseRegex (toLowerL qa.data) = some pa)
    (hpb : parseRegex (toLowerL qb.data) = some pb)
    (hpc : parseRegex (toLowerL qc.data) = some pc)
    (ha : toLowerL qa.data <+: toLowerL title.data)
    (hb : toLowerL qb.data <:+: toLowerL title.data)
    (hc : ¬ toLowerL qc.data <:+: toLowerL title.data)
    (heq1 : contentScore pa (toLowerL content.data) = contentScore pb (toLowerL content.data))
    (heq2 : contentScore pb (toLowerL content.data) = contentScore pc (toLowerL content.data)) :
    ∃ sa sb sc : Int,
      scoreMatch content title qa = some sa ∧
      scoreMatch content title qb = some sb ∧
      scoreMatch content title qc = some sc ∧
      sb ≤ sa ∧ sc ≤ sb := by
  refine ⟨titleScore (toLowerL title.data) (toLowerL qa.data) +
      contentScore pa (toLowerL content.data),
    titleScore (toLowerL title.data) (toLowerL qb.data) +
      contentScore pb (toLowerL content.data),
    titleScore (toLowerL title.data) (toLowerL qc.data) +
      contentScore pc (toLowerL content.data), ?_, ?_, ?_, ?_, ?_⟩
  · unfold scoreMatch; dsimp only; rw [hpa]
  · unfold scoreMatch; dsimp only; rw [hpb]
  · unfold scoreMatch; dsimp only; rw [hpc]
  · have hta : titleScore (toLowerL title.data) (toLowerL qa.data) = 15 := by
      unfold titleScore
      simp [(includes_isInfix_iff _ _).mpr ha.isInfix, List.isPrefixOf_iff_prefix.mpr ha]
    have htb : titleScore (toLowerL title.data) (toLowerL qb.data) ≤ 15 := by
      unfold titleScore
      split
      · split <;> omega
      · omega
    omega
  · have htb : 10 ≤ titleScore (toLowerL title.data) (toLowerL qb.data) := by
      unfold titleScore
      simp only [(includes_isInfix_iff _ _).mpr hb, if_true]
      split <;> omega
    have htc : titleScore (toLowerL title.data) (toLowerL qc.data) = 0 := by
      unfold titleScore
      have hni : (indexOfFrom (toLowerL title.data) (toLowerL qc.data) 0).isSome = false := by
        rw [Bool.eq_false_iff]
        intro hx
        exact hc ((includes_isInfix_iff _ _).mp hx)
      simp [hni]
    omega

/-- Witness for `claim_C4_amended`: title `"ab"`, empty content, queries
`"ab"` (prefix), `"b"` (contained, non-prefix), `"z"` (absent). -/
theorem claim_C4_amended_witness :
    ∃ sa sb sc : Int,
      scoreMatch "" "ab" "ab" = some sa ∧
      scoreMatch "" "ab" "b" = some sb ∧
      scoreMatch "" "ab" "z" = some sc ∧
      sb ≤ sa ∧ sc ≤ sb :=
  claim_C4_amended "" "ab" "ab" "b" "z"
    [RTok.lit 'a', RTok.lit 'b'] [RTok.lit 'b'] [RTok.lit 'z']
    (by decide) (by decide) (by decide)
    (by decide) (by decide) (by decide)
    (by decide) (by decide)

/-- C5: for a non-empty query, `findMatches` returns exactly one match per
start position `i` at which the lowercased query occurs in the lowercased
text, in increasing order of `i` (overlapping occurrences included, since
the scan resumes at `i + 1`); each match carries the window
`text.substring(max(0, i-50), i + query.length + 50)` clamped to the text
bounds, the offset `i`, and the query's length.  (The hypothesis matters:
with an empty query the JavaScript loop does not terminate.) -/
theorem claim_C5_findMatches (text query : String) (ty : MType)
    (hq : query.data ≠ []) :
    findMatches text query ty =
      (occPositions (toLowerL text.data) (toLowerL query.data)).map
        (fun i =>
          { type := ty
            text := substringJS text.data (i - 50) (i + query.data.length + 50)
            index := i
            length := query.data.length }) := by
  unfold findMatches
  rw [findMatchesFrom_eq_occ text.data (toLowerL text.data) (toLowerL query.data)
    query.data.length ty 0, occPositions_eq_from_zero]
  rfl

/-- Witness for `claim_C5_findMatches`: the spec's own example, query
`"aa"` in `"aaa"`, yields overlapping matches at indices 0 and 1. -/
theorem claim_C5_findMatches_witness :
    "aa".data ≠ [] ∧
    findMatches "aaa" "aa" MType.content =
      (occPositions (toLowerL "aaa".data) (toLowerL "aa".data)).map
        (fun i =>
          { type := MType.content
            text := substringJS "aaa".data (i - 50) (i + "aa".data.length + 50)
            index := i
            length := "aa".data.length }) ∧
    (findMatches "aaa" "aa" MType.content).map (fun m => m.index) = [0, 1] :=
  ⟨by decide, claim_C5_findMatches "aaa" "aa" MType.content (by decide), by decide⟩

/-- C6: for a non-blank query, whenever the store read fails or the result
processing fails, `searchNotes` still returns (the model is a total
function), publishes an empty result set, and resets `isSearching` to
`false`. -/
theorem claim_C6_error_degrades (fetched : Except Unit (List Note)) (query : String)
    (filters : SearchFilters) (now : Int) (st : SearchState)
    (hq : ¬ jsTrim query.data = [])
    (herr : fetched = Except.error () ∨
      ∃ notes, fetched = Except.ok notes ∧ processNotes query filters now notes = none) :
    (searchNotes fetched query filters now st).searchResults = [] ∧
    (searchNotes fetched query filters now st).isSearching = false := by
  unfold searchNotes
  rcases herr with rfl | ⟨notes, rfl, hp⟩
  · rw [if_neg hq]
    exact ⟨rfl, rfl⟩
  · rw [if_neg hq]
    dsimp only
    rw [hp]
    exact ⟨rfl, rfl⟩

/-- Witness for `claim_C6_error_degrades`: a failed store read with query
`"a"` starting from a searching state with stale results. -/
theorem claim_C6_error_degrades_witness :
    ¬ jsTrim "a".data = [] ∧
    ((searchNotes (Except.error ()) "a" ⟨none, none, none⟩ 0
        ⟨true, [⟨"/p", "n", "c", 0, 0, [], 3⟩], "old"⟩).searchResults = [] ∧
      (searchNotes (Except.error ()) "a" ⟨none, none, none⟩ 0
        ⟨true, [⟨"/p", "n", "c", 0, 0, [], 3⟩], "old"⟩).isSearching = false) :=
  ⟨by decide,
    claim_C6_error_degrades (Except.error ()) "a" ⟨none, none, none⟩ 0
      ⟨true, [⟨"/p", "n", "c", 0, 0, [], 3⟩], "old"⟩ (by decide) (Or.inl rfl)⟩

/-- C7: at most one persist call is in flight at any time (the in-flight
slot is a single `Option`, and a persist can only start from the idle
state), and a save request — the debounced routine or a manual `saveNow` —
arriving while a persist is in flight starts no persist call and leaves the
save state unchanged (dropped, not queued). -/
theorem claim_C7_single_flight (st : AutoSaveState) (content : String)
    (enabled : Bool) (cst : CoordState) :
    (st.inFlight.isSome = true → debouncedSave st content enabled = (st, false)) ∧
    ((debouncedSave st content enabled).2 = true → st.inFlight = none) ∧
    (cst.save.inFlight.isSome = true →
      saveNow cst content enabled = ({ timer := none, save := cst.save }, false)) := by
  refine ⟨?_, ?_, ?_⟩
  · intro h
    unfold debouncedSave
    simp [h]
  · intro h
    by_cases hs : st.inFlight.isSome
    · unfold debouncedSave at h
      simp [hs] at h
    · exact Option.not_isSome_iff_eq_none.mp (by simpa using hs)
  · intro h
    unfold saveNow debouncedSave
    simp [h]

/-- Witness for `claim_C7_single_flight`: a request arriving while a
persist of `"x"` is in flight is dropped. -/
theorem claim_C7_single_flight_witness :
    debouncedSave ⟨some "x".data, []⟩ "y" true = (⟨some "x".data, []⟩, false) :=
  (claim_C7_single_flight ⟨some "x".data, []⟩ "y" true
    ⟨none, ⟨some "x".data, []⟩⟩).1 (by decide)

/-- C8 (counterexample): after a successful persist of `"X"`, an
intervening successful persist of `"Y"` replaces the last-saved marker, and
a *later* save attempt whose trimmed content again equals `"X"` does start
another persist call — the claim's unqualified "every subsequent save
attempt" fails. -/
theorem claim_C8_counterexample :
    debouncedSave ⟨none, []⟩ "X" true = (⟨some "X".data, []⟩, true) ∧
    saveCompleted ⟨some "X".data, []⟩ true = ⟨none, "X".data⟩ ∧
    debouncedSave ⟨none, "X".data⟩ "Y" true = (⟨some "Y".data, "X".data⟩, true) ∧
    saveCompleted ⟨some "Y".data, "X".data⟩ true = ⟨none, "Y".data⟩ ∧
    (debouncedSave ⟨none, "Y".data⟩ "X" true).2 = true := by
  decide

/-- C8 (amended): after a persist of `X` completes successfully the
last-saved marker holds `trim X`, and *while that marker still holds
`trim X`* (no intervening successful persist of different content) every
save attempt whose trimmed content equals `trim X` starts no persist call;
the marker is never updated by a failed persist. -/
theorem claim_C8_amended (st : AutoSaveState) (X : String)
    (hin : st.inFlight = some (jsTrim X.data)) :
    (saveCompleted st true).lastSavedContent = jsTrim X.data ∧
    (∀ (st2 : AutoSaveState) (c : String) (e : Bool),
      st2.lastSavedContent = jsTrim X.data → jsTrim c.data = jsTrim X.data →
      debouncedSave st2 c e = (st2, false)) ∧
    (∀ st3 : AutoSaveState,
      (saveCompleted st3 false).lastSavedContent = st3.lastSavedContent) := by
  refine ⟨?_, ?_, ?_⟩
  · unfold saveCompleted
    rw [hin]
    rfl
  · intro st2 c e h2 hc
    unfold debouncedSave
    by_cases hs : st2.inFlight.isSome
    · simp [hs]
    · simp only [hs, Bool.false_or]
      rw [hc, ← h2]
      simp
  · intro st3
    unfold saveCompleted
    cases h3 : st3.inFlight with
    | none => rfl
    | some c => simp

/-- Witness for `claim_C8_amended` with `X = "X"` in flight over an empty
marker. -/
theorem claim_C8_amended_witness :
    (saveCompleted ⟨some (jsTrim "X".data), []⟩ true).lastSavedContent = jsTrim "X".data ∧
    (∀ (st2 : AutoSaveState) (c : String) (e : Bool),
      st2.lastSavedContent = jsTrim "X".data → jsTrim c.data = jsTrim "X".data →
      debouncedSave st2 c e = (st2, false)) ∧
    (∀ st3 : AutoSaveState,
      (saveCompleted st3 false).lastSavedContent = st3.lastSavedContent) :=
  claim_C8_amended ⟨some (jsTrim "X".data), []⟩ "X" rfl

/-- C9: with the coordinator enabled and `delay = 2000`, content changes at
t = 0, 500 and 900 produce exactly one persist call, at t = 2900, carrying
the (trimmed) content as of t = 900: each change discards the previous
timer before it can fire (the timers armed at t = 0 and t = 500 would only
fire at 2000 and 2500, after they have been cleared), and only the timer
armed at t = 900 fires. -/
theorem claim_C9_debounce_collapsing (c0 c1 c2 : String)
    (h2 : ¬ jsTrim c2.data = []) :
    autoSaveRun 2000 true [(0, c0), (500, c1), (900, c2)] =
      [(2900, jsTrim c2.data)] := by
  by_cases h0 : jsTrim c0.data = [] <;> by_cases h1 : jsTrim c1.data = [] <;>
    simp [autoSaveRun, runChanges, applyContentChange, fireTimer, debouncedSave,
      saveCompleted, h0, h1, h2]

/-- Witness for `claim_C9_debounce_collapsing` with contents `"a"`, `"ab"`,
`"abc"`. -/
theorem claim_C9_debounce_collapsing_witness :
    ¬ jsTrim "abc".data = [] ∧
    autoSaveRun 2000 true [(0, "a"), (500, "ab"), (900, "abc")] =
      [(2900, jsTrim "abc".data)] :=
  ⟨by decide, claim_C9_debounce_collapsing "a" "ab" "abc" (by decide)⟩

/-- C10: whenever the coordinator starts a persist call, the argument (held
in the in-flight slot) is the trimmed current content, and on success the
last-saved marker stores that trimmed value; consequently any content whose
trimmed form equals the marker — i.e. differing from a previously saved
state only by surrounding whitespace — is never persisted. -/
theorem claim_C10_trimmed_persist (st : AutoSaveState) (content : String)
    (enabled : Bool) (st' : AutoSaveState)
    (h : debouncedSave st content enabled = (st', true)) :
    st'.inFlight = some (jsTrim content.data) ∧
    (saveCompleted st' true).lastSavedContent = jsTrim content.data ∧
    (∀ (st2 : AutoSaveState) (d : String) (e : Bool),
      jsTrim d.data = st2.lastSavedContent → (debouncedSave st2 d e).2 = false) := by
  have hst' : st' = { st with inFlight := some (jsTrim content.data) } := by
    unfold debouncedSave at h
    by_cases hs : st.inFlight.isSome || !enabled
    · simp [hs] at h
    · simp only [hs, if_false] at h
      by_cases he : jsTrim content.data = st.lastSavedContent
      · simp [he] at h
      · simp only [he, if_false] at h
        exact (Prod.mk.injEq _ _ _ _ ▸ h).1.symm
  subst hst'
  refine ⟨rfl, rfl, ?_⟩
  intro st2 d e hd
  unfold debouncedSave
  by_cases hs : st2.inFlight.isSome
  · simp [hs]
  · simp [hs, hd]

/-- Witness for `claim_C10_trimmed_persist`: content `" x "` is persisted
as `"x"`. -/
theorem claim_C10_trimmed_persist_witness :
    (⟨some (jsTrim " x ".data), []⟩ : AutoSaveState).inFlight = some (jsTrim " x ".data) ∧
    (saveCompleted ⟨some (jsTrim " x ".data), []⟩ true).lastSavedContent = jsTrim " x ".data ∧
    (∀ (st2 : AutoSaveState) (d : String) (e : Bool),
      jsTrim d.data = st2.lastSavedContent → (debouncedSave st2 d e).2 = false) :=
  claim_C10_trimmed_persist ⟨none, []⟩ " x " true ⟨some (jsTrim " x ".data), []⟩ (by decide)
